import Mathlib

/-!
# CSS baseline analyzer (`server.js`): feature extraction and classification

A shallow embedding of the analysis core of `server.js`:

* `baselineData`        the four curated reference lists (lines 23-79);
* `analyzeCSSFile`      the per-file extractor (lines 163-221);
* `categorizeFeatures`  the tier classifier (lines 224-249);
* `analyze`             the part of the `/analyze` handler that runs once the
                        list of style-sheet files is known (lines 364-410).

Conventions of the embedding.

* A JavaScript string is a `String`.  `a.includes(b)` is substring
  containment; on well-formed strings containment of UTF-16 code units and
  containment of code points agree.
* A JavaScript `Set` of strings is a duplicate-free `List String` in insertion
  order; `Array.from(set)` is that list.
* `parse` comes from the `postcss` package.  Its result is taken as data: a
  tree of `Node`s.  `fs.readFileSync` followed by `parse` either throws or
  yields a tree, which is the `Option` in `FileSystem`.
* `container.walk(cb)` of `postcss` calls `cb` on every descendant in
  depth-first pre-order; none of the callbacks of `server.js` returns `false`
  or edits the tree, so a walk is a left fold over the list of descendants.
-/

namespace CssRizz

/-! ## Strings and insertion-ordered sets -/

/-- Substring search on character lists: does `t` occur contiguously in `s`? -/
def includesAux : List Char → List Char → Bool
  | [], t => t.isEmpty
  | c :: s, t => t.isPrefixOf (c :: s) || includesAux s t

/-- The method `s.includes(t)` of JavaScript strings. -/
def includes (s t : String) : Bool := includesAux s.data t.data

/-- The method `set.add(x)` of a JavaScript `Set`, on its insertion-ordered list of elements. -/
def setAdd (s : List String) (x : String) : List String :=
  if x ∈ s then s else s ++ [x]

/-- The statement `if (c) features.add(x);`. -/
def addIf (features : List String) (c : Bool) (x : String) : List String :=
  if c then setAdd features x else features

/-! ## Reference data (lines 23-79) -/

/-- The shape of the object `baselineData`. -/
structure BaselineData where
  newlyAvailable : List String
  widelyAvailable : List String
  experimental : List String
  stable : List String

/-- The constant `baselineData`. -/
def baselineData : BaselineData where
  newlyAvailable := [
    "container", "container-name", "container-type", "container-query", "@container",
    "subgrid", "dvh", "svh", "lvh", "dvw", "svw", "lvw", "vi", "vb",
    "color-mix", "relative-color-syntax", "light-dark",
    "text-wrap", "wrap-before", "wrap-after", "wrap-inside",
    "scroll-timeline", "view-timeline", "animation-timeline",
    "anchor", "anchor-name", "anchor-scope", "@position-try",
    "has()", ":has()", "not()", ":not()", "is()", ":is()",
    "clamp", "max", "min", "abs", "sign", "mod", "rem",
    "accent-color", "color-scheme", "forced-color-adjust",
    "scroll-behavior", "scroll-snap-type", "scroll-snap-align",
    "backdrop-filter", "clip-path", "mask", "mask-image"]
  widelyAvailable := [
    "grid", "flex", "grid-template-areas", "grid-area", "grid-column", "grid-row",
    "transform", "transform-origin", "transform-style", "perspective",
    "filter", "blur", "brightness", "contrast", "grayscale", "hue-rotate",
    "box-shadow", "text-shadow", "border-radius", "border-image",
    "transition", "animation", "@keyframes", "animation-delay",
    "opacity", "visibility", "display", "position", "z-index",
    "margin", "padding", "border", "outline", "width", "height",
    "font-family", "font-size", "font-weight", "line-height",
    "color", "background", "background-color", "background-image",
    "cursor", "pointer-events", "user-select", "resize",
    "overflow", "white-space", "text-overflow", "word-wrap",
    "box-sizing", "calc", "var", "custom-properties"]
  experimental := [
    "@scope", "scope", "scope-start", "scope-end",
    "anchor-position", "position-anchor", "inset-area",
    "linear", "radial", "conic", "color-mix",
    "scroll-driven-animations", "scroll-timeline-axis",
    "view-transition", "view-transition-name",
    "popover", "anchor", "anchor-element",
    "trigonometric-functions", "sin", "cos", "tan",
    "logarithmic-functions", "log", "pow", "sqrt",
    "color-contrast", "color-adjust", "color-scheme"]
  stable := [
    "float", "clear", "display", "position", "top", "right", "bottom", "left",
    "margin", "padding", "border", "outline", "width", "height", "max-width", "min-width",
    "font", "font-family", "font-size", "font-weight", "font-style", "text-align",
    "color", "background", "background-color", "background-image", "background-repeat",
    "text-decoration", "text-transform", "letter-spacing", "word-spacing",
    "list-style", "table-layout", "border-collapse", "caption-side",
    "cursor", "outline", "visibility", "overflow", "clip", "vertical-align",
    "white-space", "word-wrap", "text-indent", "line-height"]

/-! ## The parsed style sheet -/

/-- A node of the tree that `parse` of `postcss` returns: a style rule with its selector, an
at-rule with its name and parameters, a declaration, or a comment.  An at-rule without a body
has no children. -/
inductive Node where
  | rule (selector : String) (nodes : List Node)
  | atrule (name : String) (params : String) (nodes : List Node)
  | decl (prop : String) (value : String)
  | comment (text : String)

/-- The root of a parsed style sheet: the list of its top-level nodes. -/
structure Root where
  nodes : List Node

mutual
/-- The descendants of a node, in the order in which `node.walk` visits them. -/
def Node.walk : Node → List Node
  | .rule _ ns => walkList ns
  | .atrule _ _ ns => walkList ns
  | .decl _ _ => []
  | .comment _ => []
/-- The descendants of a container with the given children, in the order of `walk`. -/
def walkList : List Node → List Node
  | [] => []
  | n :: ns => n :: (n.walk ++ walkList ns)
end

/-! ## `analyzeCSSFile` (lines 163-221) -/

/-- The callback of `rule.walkDecls` (lines 183-207) on a declaration `prop: value`. -/
def onDecl (features : List String) (prop value : String) : List String :=
  let features := setAdd features prop
  let features := addIf features (includes value "clamp(") "clamp()"
  let features := addIf features (includes value "min(") "min()"
  let features := addIf features (includes value "max(") "max()"
  let features := addIf features (includes value "color-mix(") "color-mix()"
  let features := addIf features (includes value "dvh") "dvh"
  let features := addIf features (includes value "svh") "svh"
  let features := addIf features (includes value "lvh") "lvh"
  let features := addIf features (includes value "dvw") "dvw"
  let features := addIf features (includes value "svw") "svw"
  let features := addIf features (includes value "lvw") "lvw"
  let features := addIf features (includes value "container-query") "container-query"
  let features := addIf features (includes value "subgrid") "subgrid"
  let features := addIf features (includes value "backdrop-filter") "backdrop-filter"
  let features := addIf features (includes value "scroll-timeline") "scroll-timeline"
  let features := addIf features (includes value "view-timeline") "view-timeline"
  let features := addIf features (includes value "anchor") "anchor"
  let features := addIf features (includes value "light-dark") "light-dark"
  features

/-- One step of `rule.walkDecls`: `walk` visits the node, the callback runs on declarations
only. -/
def walkDeclsStep (features : List String) : Node → List String
  | .decl prop value => onDecl features prop value
  | _ => features

/-- The selector checks of lines 171-180; an empty selector is falsy and is skipped. -/
def onSelector (features : List String) (selector : String) : List String :=
  if selector = "" then features
  else
    let features := addIf features (includes selector ":has(") ":has()"
    let features := addIf features (includes selector ":not(") ":not()"
    let features := addIf features (includes selector ":is(") ":is()"
    let features := addIf features (includes selector "@container") "@container"
    let features := addIf features (includes selector "@scope") "@scope"
    features

/-- The callback of `root.walkRules` (lines 169-208) on a rule with the given selector and
children. -/
def onRule (features : List String) (selector : String) (nodes : List Node) : List String :=
  (walkList nodes).foldl walkDeclsStep (onSelector features selector)

/-- One step of `root.walkRules`: the callback runs on style rules only. -/
def walkRulesStep (features : List String) : Node → List String
  | .rule selector nodes => onRule features selector nodes
  | _ => features

/-- The callback of `root.walkAtRules` (lines 210-214) on an at-rule with the given name. -/
def onAtRule (features : List String) (name : String) : List String :=
  let features := addIf features (decide (name = "container")) "@container"
  let features := addIf features (decide (name = "scope")) "@scope"
  let features := addIf features (decide (name = "keyframes")) "@keyframes"
  features

/-- One step of `root.walkAtRules`: the callback runs on at-rules only. -/
def walkAtRulesStep (features : List String) : Node → List String
  | .atrule name _ _ => onAtRule features name
  | _ => features

/-- The body of the `try` block once the file is parsed (lines 167-216). -/
def extractFeatures (root : Root) : List String :=
  let features : List String := []
  let features := (walkList root.nodes).foldl walkRulesStep features
  let features := (walkList root.nodes).foldl walkAtRulesStep features
  features

/-- What `parse(fs.readFileSync(filePath))` yields for each path: `none` when reading or
parsing throws, the parsed tree otherwise. -/
abbrev FileSystem := String → Option Root

/-- The function `analyzeCSSFile`: the `catch` branch returns the empty array. -/
def analyzeCSSFile (files : FileSystem) (filePath : String) : List String :=
  match files filePath with
  | some root => extractFeatures root
  | none => []

/-! ## `categorizeFeatures` (lines 224-249) -/

/-- The shape of the object `categorized`. -/
structure Categorized where
  newlyAvailable : List String
  widelyAvailable : List String
  experimental : List String
  stable : List String

/-- The callback `f => feature.includes(f) || f.includes(feature)` handed to `some`. -/
def someMatch (list : List String) (feature : String) : Bool :=
  list.any (fun f => includes feature f || includes f feature)

/-- The body of the `forEach` callback (lines 232-246). -/
def categorizeStep (categorized : Categorized) (feature : String) : Categorized :=
  if someMatch baselineData.newlyAvailable feature then
    { categorized with newlyAvailable := categorized.newlyAvailable ++ [feature] }
  else if someMatch baselineData.widelyAvailable feature then
    { categorized with widelyAvailable := categorized.widelyAvailable ++ [feature] }
  else if someMatch baselineData.experimental feature then
    { categorized with experimental := categorized.experimental ++ [feature] }
  else if someMatch baselineData.stable feature then
    { categorized with stable := categorized.stable ++ [feature] }
  else
    { categorized with stable := categorized.stable ++ [feature] }

/-- The function `categorizeFeatures`. -/
def categorizeFeatures (features : List String) : Categorized :=
  features.foldl categorizeStep
    { newlyAvailable := [], widelyAvailable := [], experimental := [], stable := [] }

/-! ## The `/analyze` handler from the file list on (lines 364-410) -/

/-- The object `stats` of the response. -/
structure Stats where
  newlyAvailable : Nat
  widelyAvailable : Nat
  experimental : Nat
  stable : Nat
deriving DecidableEq

/-- An entry of the array `features` of the response: a token and its category label. -/
structure Feature where
  name : String
  category : String
deriving DecidableEq

/-- The value `repoInfo` of the handler, as far as the response reads it. -/
structure RepoInfo where
  owner : String
  repo : String
  defaultBranch : String

/-- The object `repositoryInfo` of the response. -/
structure RepositoryInfo where
  name : String
  owner : String
  defaultBranch : String
  url : String
deriving DecidableEq

/-- The JSON body that the handler sends.  A field that the object literal does not have is
`none`; `repositoryInfo` is `some none` when it is `null`. -/
structure Report where
  stats : Stats
  features : List Feature
  message : Option String
  cssFilesCount : Option Nat
  totalFeatures : Option Nat
  repositoryInfo : Option (Option RepositoryInfo)

/-- The loop of lines 374-379: the union of the per-file token lists, in insertion order. -/
def collectFeatures (files : FileSystem) (cssFiles : List String) : List String :=
  cssFiles.foldl
    (fun allFeatures cssFile => (analyzeCSSFile files cssFile).foldl setAdd allFeatures) []

/-- Lines 364-410 of the handler of `/analyze`: the response for the list `cssFiles`. -/
def analyze (files : FileSystem) (repoInfo : Option RepoInfo) (cssFiles : List String) :
    Report :=
  if cssFiles.length = 0 then
    { stats := { newlyAvailable := 0, widelyAvailable := 0, experimental := 0, stable := 0 }
      features := []
      message := some "No CSS files found in the repository"
      cssFilesCount := none
      totalFeatures := none
      repositoryInfo := none }
  else
    let allFeatures := collectFeatures files cssFiles
    let categorized := categorizeFeatures allFeatures
    let stats : Stats :=
      { newlyAvailable := categorized.newlyAvailable.length
        widelyAvailable := categorized.widelyAvailable.length
        experimental := categorized.experimental.length
        stable := categorized.stable.length }
    let features :=
      categorized.newlyAvailable.map (fun f => { name := f, category := "Newly Available" }) ++
      categorized.widelyAvailable.map (fun f => { name := f, category := "Widely Available" }) ++
      categorized.experimental.map (fun f => { name := f, category := "Experimental" }) ++
      categorized.stable.map (fun f => { name := f, category := "Stable" })
    { stats := stats
      features := features
      message := none
      cssFilesCount := some cssFiles.length
      totalFeatures := some allFeatures.length
      repositoryInfo := some (repoInfo.map (fun r =>
        { name := r.repo
          owner := r.owner
          defaultBranch := r.defaultBranch
          url := "https://github.com/" ++ r.owner ++ "/" ++ r.repo })) }


/-! ## Specification-side vocabulary -/

/-- In the words of the specification: the token matches a tier when some entry of the
reference list of that tier is a substring of the token or the token is a substring of that entry. -/
def Matches (list : List String) (token : String) : Prop :=
  ∃ f ∈ list, f.data <:+: token.data ∨ token.data <:+: f.data

instance (list : List String) (token : String) : Decidable (Matches list token) :=
  inferInstanceAs (Decidable (∃ f ∈ list, f.data <:+: token.data ∨ token.data <:+: f.data))

/-- In the words of the specification: the node lies somewhere below a container with the given
children, as a child or inside the body of a rule or at-rule below it. -/
inductive Inside : Node → List Node → Prop where
  | child {n : Node} {ns : List Node} : n ∈ ns → Inside n ns
  | rule {n : Node} {ns body : List Node} {selector : String} :
      Node.rule selector body ∈ ns → Inside n body → Inside n ns
  | atrule {n : Node} {ns body : List Node} {name params : String} :
      Node.atrule name params body ∈ ns → Inside n body → Inside n ns

/-! ## The branches of the classifier -/

/-- The guard under which the `forEach` callback pushes to `newlyAvailable`. -/
def toNewly (feature : String) : Bool := someMatch baselineData.newlyAvailable feature

/-- The guard under which the `forEach` callback pushes to `widelyAvailable`. -/
def toWidely (feature : String) : Bool :=
  !someMatch baselineData.newlyAvailable feature && someMatch baselineData.widelyAvailable feature

/-- The guard under which the `forEach` callback pushes to `experimental`. -/
def toExperimental (feature : String) : Bool :=
  !someMatch baselineData.newlyAvailable feature &&
    (!someMatch baselineData.widelyAvailable feature &&
      someMatch baselineData.experimental feature)

/-- The guard under which the `forEach` callback pushes to `stable`, in either of its last two
branches. -/
def toStable (feature : String) : Bool :=
  !someMatch baselineData.newlyAvailable feature &&
    (!someMatch baselineData.widelyAvailable feature &&
      !someMatch baselineData.experimental feature)

/-! ## Example documents -/

/-- The tree of one style rule with selector `.card:has(img)` and the declarations
`container-type: inline-size` and `width: clamp(1rem, 2vw, 3rem)`. -/
def cardRoot : Root :=
  ⟨[.rule ".card:has(img)"
      [.decl "container-type" "inline-size", .decl "width" "clamp(1rem, 2vw, 3rem)"]]⟩

/-- The tree of the at-rule `@keyframes spin` whose body holds the rules `from` and `to` with
the declarations `transform: rotate(0deg)` and `transform: rotate(360deg)`. -/
def keyframesRoot : Root :=
  ⟨[.atrule "keyframes" "spin"
      [.rule "from" [.decl "transform" "rotate(0deg)"],
       .rule "to" [.decl "transform" "rotate(360deg)"]]]⟩

/-- The tree of the at-rule `@font-face` with the declaration `font-family: Inter` directly in
its body. -/
def fontFaceRoot : Root :=
  ⟨[.atrule "font-face" "" [.decl "font-family" "Inter"]]⟩

/-- The tree of `color: red;`: a declaration at the top level. -/
def topLevelRoot : Root :=
  ⟨[.decl "color" "red"]⟩

/-- The string literals that the callbacks of `analyzeCSSFile` hand to `features.add`
(lines 175-179, 190-206 and 211-213): the only tokens that are not property names. -/
def markerTokens : List String :=
  [":has()", ":not()", ":is()", "@container", "@scope",
   "clamp()", "min()", "max()", "color-mix()", "dvh", "svh", "lvh", "dvw", "svw", "lvw",
   "container-query", "subgrid", "backdrop-filter", "scroll-timeline", "view-timeline",
   "anchor", "light-dark", "@keyframes"]

/-- The tree of a document with `font-family: Inter` directly in the body of `@font-face` and
the rule `.a` with the declaration `color: red` inside `@media (min-width: 600px)`. -/
def mixedRoot : Root :=
  ⟨[.atrule "font-face" "" [.decl "font-family" "Inter"],
    .atrule "media" "(min-width: 600px)" [.rule ".a" [.decl "color" "red"]]]⟩

/-- A directory in which `good.css` parses to `keyframesRoot` and every other file fails. -/
def oneGoodFile : FileSystem :=
  fun p => if p = "good.css" then some keyframesRoot else none

/-! # Lemmas -/

/-! ## Lemmas on strings and sets -/

theorem includesAux_iff (s t : List Char) : includesAux s t = true ↔ t <:+: s := by
  induction s with
  | nil => simp [includesAux]
  | cons c s ih =>
    simp only [includesAux, Bool.or_eq_true, ih, List.infix_cons_iff, List.isPrefixOf_iff_prefix]

theorem includes_iff (s t : String) : includes s t = true ↔ t.data <:+: s.data :=
  includesAux_iff s.data t.data

theorem someMatch_iff (list : List String) (token : String) :
    someMatch list token = true ↔ Matches list token := by
  simp [someMatch, Matches, includes_iff]

theorem mem_setAdd (s : List String) (x y : String) : y ∈ setAdd s x ↔ y ∈ s ∨ y = x := by
  unfold setAdd
  split
  · constructor
    · exact Or.inl
    · rintro (h | h)
      · exact h
      · subst h; assumption
  · simp

theorem nodup_setAdd (s : List String) (x : String) (h : s.Nodup) : (setAdd s x).Nodup := by
  unfold setAdd
  split
  · exact h
  · rename_i hx
    rw [List.nodup_append]
    refine ⟨h, List.nodup_singleton x, ?_⟩
    intro a ha hb
    simp at hb
    subst hb
    exact hx ha

theorem mem_foldl_setAdd (xs s : List String) (y : String) :
    y ∈ xs.foldl setAdd s ↔ y ∈ s ∨ y ∈ xs := by
  induction xs generalizing s with
  | nil => simp
  | cons x xs ih =>
    simp only [List.foldl_cons, ih, mem_setAdd, List.mem_cons]
    tauto

theorem nodup_foldl_setAdd (xs s : List String) (h : s.Nodup) : (xs.foldl setAdd s).Nodup := by
  induction xs generalizing s with
  | nil => exact h
  | cons x xs ih => exact ih _ (nodup_setAdd s x h)


/-! ## The classifier as four filters -/

theorem foldl_categorizeStep (features : List String) (c : Categorized) :
    features.foldl categorizeStep c =
      { newlyAvailable := c.newlyAvailable ++ features.filter toNewly
        widelyAvailable := c.widelyAvailable ++ features.filter toWidely
        experimental := c.experimental ++ features.filter toExperimental
        stable := c.stable ++ features.filter toStable } := by
  induction features generalizing c with
  | nil => simp
  | cons x xs ih =>
    rw [List.foldl_cons, ih]
    unfold categorizeStep
    by_cases hN : someMatch baselineData.newlyAvailable x = true
    · simp [toNewly, toWidely, toExperimental, toStable, hN, List.filter_cons]
    · by_cases hW : someMatch baselineData.widelyAvailable x = true
      · simp [toNewly, toWidely, toExperimental, toStable, hN, hW, List.filter_cons]
      · by_cases hE : someMatch baselineData.experimental x = true
        · simp [toNewly, toWidely, toExperimental, toStable, hN, hW, hE, List.filter_cons]
        · by_cases hS : someMatch baselineData.stable x = true
          · simp [toNewly, toWidely, toExperimental, toStable, hN, hW, hE, hS, List.filter_cons]
          · simp [toNewly, toWidely, toExperimental, toStable, hN, hW, hE, hS, List.filter_cons]

theorem categorizeFeatures_eq (features : List String) :
    categorizeFeatures features =
      { newlyAvailable := features.filter toNewly
        widelyAvailable := features.filter toWidely
        experimental := features.filter toExperimental
        stable := features.filter toStable } := by
  unfold categorizeFeatures
  rw [foldl_categorizeStep]
  simp

theorem toNewly_eq (t : String) : toNewly t = decide (Matches baselineData.newlyAvailable t) := by
  rw [Bool.eq_iff_iff]; simp [toNewly, someMatch_iff]

theorem toWidely_eq (t : String) :
    toWidely t = decide (¬ Matches baselineData.newlyAvailable t ∧
      Matches baselineData.widelyAvailable t) := by
  rw [Bool.eq_iff_iff]; simp [toWidely, someMatch_iff, ← Bool.not_eq_true]

theorem toExperimental_eq (t : String) :
    toExperimental t = decide (¬ Matches baselineData.newlyAvailable t ∧
      ¬ Matches baselineData.widelyAvailable t ∧ Matches baselineData.experimental t) := by
  rw [Bool.eq_iff_iff]; simp [toExperimental, someMatch_iff, ← Bool.not_eq_true]

theorem toStable_eq (t : String) :
    toStable t = decide
      ((¬ Matches baselineData.newlyAvailable t ∧ ¬ Matches baselineData.widelyAvailable t ∧
          ¬ Matches baselineData.experimental t ∧ Matches baselineData.stable t) ∨
        (¬ Matches baselineData.newlyAvailable t ∧ ¬ Matches baselineData.widelyAvailable t ∧
          ¬ Matches baselineData.experimental t ∧ ¬ Matches baselineData.stable t)) := by
  rw [Bool.eq_iff_iff]
  simp only [toStable, Bool.and_eq_true, Bool.not_eq_true', ← Bool.not_eq_true, someMatch_iff,
    decide_eq_true_eq]
  tauto


/-! ## Lemmas on the extractor -/

theorem mem_walkList_of_mem {n : Node} {ns : List Node} (h : n ∈ ns) : n ∈ walkList ns := by
  induction ns with
  | nil => cases h
  | cons m ms ih =>
    rw [walkList]
    rcases List.mem_cons.mp h with h | h
    · subst h; exact List.mem_cons_self _ _
    · exact List.mem_cons_of_mem _ (List.mem_append_right _ (ih h))

theorem mem_walkList_of_mem_walk {x n : Node} {ns : List Node} (h : n ∈ ns) (hx : x ∈ n.walk) :
    x ∈ walkList ns := by
  induction ns with
  | nil => cases h
  | cons m ms ih =>
    rw [walkList]
    rcases List.mem_cons.mp h with h | h
    · subst h; exact List.mem_cons_of_mem _ (List.mem_append_left _ hx)
    · exact List.mem_cons_of_mem _ (List.mem_append_right _ (ih h))

theorem mem_walkList_of_inside {n : Node} {ns : List Node} (h : Inside n ns) :
    n ∈ walkList ns := by
  induction h with
  | child h => exact mem_walkList_of_mem h
  | rule hr _ ih => exact mem_walkList_of_mem_walk hr (by rw [Node.walk]; exact ih)
  | atrule ha _ ih => exact mem_walkList_of_mem_walk ha (by rw [Node.walk]; exact ih)

theorem mem_addIf_of_mem {s : List String} {y : String} (c : Bool) (x : String) (h : y ∈ s) :
    y ∈ addIf s c x := by
  unfold addIf
  split
  · exact (mem_setAdd s x y).mpr (Or.inl h)
  · exact h

theorem mem_onDecl_of_mem {s : List String} {y : String} (prop value : String) (h : y ∈ s) :
    y ∈ onDecl s prop value := by
  unfold onDecl
  repeat apply mem_addIf_of_mem
  exact (mem_setAdd s prop y).mpr (Or.inl h)

theorem prop_mem_onDecl (s : List String) (prop value : String) :
    prop ∈ onDecl s prop value := by
  unfold onDecl
  repeat apply mem_addIf_of_mem
  exact (mem_setAdd s prop prop).mpr (Or.inr rfl)

theorem mem_walkDeclsStep_of_mem {s : List String} {y : String} (n : Node) (h : y ∈ s) :
    y ∈ walkDeclsStep s n := by
  cases n <;> simp only [walkDeclsStep] <;> first | exact h | exact mem_onDecl_of_mem _ _ h

theorem mem_onSelector_of_mem {s : List String} {y : String} (selector : String) (h : y ∈ s) :
    y ∈ onSelector s selector := by
  unfold onSelector
  split
  · exact h
  · repeat apply mem_addIf_of_mem
    exact h

theorem mem_onAtRule_of_mem {s : List String} {y : String} (name : String) (h : y ∈ s) :
    y ∈ onAtRule s name := by
  unfold onAtRule
  repeat apply mem_addIf_of_mem
  exact h

theorem mem_walkAtRulesStep_of_mem {s : List String} {y : String} (n : Node) (h : y ∈ s) :
    y ∈ walkAtRulesStep s n := by
  cases n <;> simp only [walkAtRulesStep] <;> first | exact h | exact mem_onAtRule_of_mem _ h

/-- A fold whose step only ever adds tokens keeps every token it has. -/
theorem mem_foldl_of_mem {step : List String → Node → List String}
    (hstep : ∀ s n y, y ∈ s → y ∈ step s n) (ns : List Node) {s : List String} {y : String}
    (h : y ∈ s) : y ∈ ns.foldl step s := by
  induction ns generalizing s with
  | nil => exact h
  | cons n ns ih => exact ih (hstep s n y h)

/-- A fold whose step only ever adds tokens holds a token that the step adds at a visited
node. -/
theorem mem_foldl_of_step {step : List String → Node → List String}
    (hstep : ∀ s n y, y ∈ s → y ∈ step s n) {ns : List Node} {n : Node} {y : String}
    (hn : n ∈ ns) (hy : ∀ s, y ∈ step s n) (s : List String) : y ∈ ns.foldl step s := by
  induction ns generalizing s with
  | nil => cases hn
  | cons m ms ih =>
    rcases List.mem_cons.mp hn with h | h
    · subst h; exact mem_foldl_of_mem hstep ms (hy s)
    · exact ih h _

theorem mem_walkRulesStep_of_mem {s : List String} {y : String} (n : Node) (h : y ∈ s) :
    y ∈ walkRulesStep s n := by
  cases n <;> simp only [walkRulesStep] <;>
    first
    | exact h
    | exact mem_foldl_of_mem (fun s n y => mem_walkDeclsStep_of_mem n) _
        (mem_onSelector_of_mem _ h)

theorem prop_mem_extractFeatures {root : Root} {selector prop value : String} {body : List Node}
    (hrule : Inside (Node.rule selector body) root.nodes)
    (hdecl : Inside (Node.decl prop value) body) : prop ∈ extractFeatures root := by
  unfold extractFeatures
  apply mem_foldl_of_mem (fun s n y => mem_walkAtRulesStep_of_mem n)
  apply mem_foldl_of_step (fun s n y => mem_walkRulesStep_of_mem n)
    (mem_walkList_of_inside hrule)
  intro s
  simp only [walkRulesStep, onRule]
  apply mem_foldl_of_step (fun s n y => mem_walkDeclsStep_of_mem n)
    (mem_walkList_of_inside hdecl)
  intro s
  exact prop_mem_onDecl s prop value


/-! ## Nothing but rule declarations and markers is extracted -/

theorem inside_mono {n : Node} {ns ms : List Node} (hsub : ∀ m, m ∈ ns → m ∈ ms)
    (h : Inside n ns) : Inside n ms := by
  cases h with
  | child h => exact Inside.child (hsub _ h)
  | rule hr hb => exact Inside.rule (hsub _ hr) hb
  | atrule ha hb => exact Inside.atrule (hsub _ ha) hb

theorem inside_of_mem_walkList : (ns : List Node) → (n : Node) → n ∈ walkList ns → Inside n ns
  | [], n, h => by simp [walkList] at h
  | .rule selector body :: ms, n, h => by
    rw [walkList, Node.walk, List.mem_cons, List.mem_append] at h
    rcases h with h | h | h
    · subst h
      exact Inside.child (List.mem_cons_self _ _)
    · exact Inside.rule (List.mem_cons_self _ _) (inside_of_mem_walkList body n h)
    · exact inside_mono (fun _ hm => List.mem_cons_of_mem _ hm)
        (inside_of_mem_walkList ms n h)
  | .atrule name params body :: ms, n, h => by
    rw [walkList, Node.walk, List.mem_cons, List.mem_append] at h
    rcases h with h | h | h
    · subst h
      exact Inside.child (List.mem_cons_self _ _)
    · exact Inside.atrule (List.mem_cons_self _ _) (inside_of_mem_walkList body n h)
    · exact inside_mono (fun _ hm => List.mem_cons_of_mem _ hm)
        (inside_of_mem_walkList ms n h)
  | .decl prop value :: ms, n, h => by
    rw [walkList, Node.walk, List.nil_append, List.mem_cons] at h
    rcases h with h | h
    · subst h
      exact Inside.child (List.mem_cons_self _ _)
    · exact inside_mono (fun _ hm => List.mem_cons_of_mem _ hm)
        (inside_of_mem_walkList ms n h)
  | .comment text :: ms, n, h => by
    rw [walkList, Node.walk, List.nil_append, List.mem_cons] at h
    rcases h with h | h
    · subst h
      exact Inside.child (List.mem_cons_self _ _)
    · exact inside_mono (fun _ hm => List.mem_cons_of_mem _ hm)
        (inside_of_mem_walkList ms n h)
termination_by ns => sizeOf ns
decreasing_by
  all_goals simp_wf
  all_goals omega

theorem mem_addIf {s : List String} {c : Bool} {x y : String} (h : y ∈ addIf s c x) :
    y ∈ s ∨ y = x := by
  unfold addIf at h
  split at h
  · exact (mem_setAdd s x y).mp h
  · exact Or.inl h

/-- A token that `addIf` yields for a marker literal was there before or is a marker. -/
theorem mem_addIf_marker {s : List String} {c : Bool} {x y : String} (hx : x ∈ markerTokens)
    (h : y ∈ addIf s c x) : y ∈ s ∨ y ∈ markerTokens := by
  rcases mem_addIf h with h | h
  · exact Or.inl h
  · exact Or.inr (h ▸ hx)

theorem mem_onDecl {s : List String} {prop value y : String} (h : y ∈ onDecl s prop value) :
    y ∈ s ∨ y = prop ∨ y ∈ markerTokens := by
  unfold onDecl at h
  simp only at h
  have step : ∀ {u : List String} {c : Bool} {x : String}, x ∈ markerTokens →
      y ∈ addIf u c x → (y ∈ u → y ∈ markerTokens ∨ y ∈ setAdd s prop) →
      y ∈ markerTokens ∨ y ∈ setAdd s prop := by
    intro u c x hx hy hs
    rcases mem_addIf_marker hx hy with h | h
    · exact hs h
    · exact Or.inl h
  have key : y ∈ markerTokens ∨ y ∈ setAdd s prop := by
    refine step (by decide) h fun h => ?_
    refine step (by decide) h fun h => ?_
    refine step (by decide) h fun h => ?_
    refine step (by decide) h fun h => ?_
    refine step (by decide) h fun h => ?_
    refine step (by decide) h fun h => ?_
    refine step (by decide) h fun h => ?_
    refine step (by decide) h fun h => ?_
    refine step (by decide) h fun h => ?_
    refine step (by decide) h fun h => ?_
    refine step (by decide) h fun h => ?_
    refine step (by decide) h fun h => ?_
    refine step (by decide) h fun h => ?_
    refine step (by decide) h fun h => ?_
    refine step (by decide) h fun h => ?_
    refine step (by decide) h fun h => ?_
    refine step (by decide) h fun h => ?_
    exact Or.inr h
  rcases key with hk | hk
  · exact Or.inr (Or.inr hk)
  · rcases (mem_setAdd s prop y).mp hk with hk | hk
    · exact Or.inl hk
    · exact Or.inr (Or.inl hk)

theorem mem_onSelector {s : List String} {selector y : String}
    (h : y ∈ onSelector s selector) : y ∈ s ∨ y ∈ markerTokens := by
  unfold onSelector at h
  split at h
  · exact Or.inl h
  · simp only at h
    rcases mem_addIf_marker (by decide) h with h | h
    · rcases mem_addIf_marker (by decide) h with h | h
      · rcases mem_addIf_marker (by decide) h with h | h
        · rcases mem_addIf_marker (by decide) h with h | h
          · rcases mem_addIf_marker (by decide) h with h | h
            · exact Or.inl h
            · exact Or.inr h
          · exact Or.inr h
        · exact Or.inr h
      · exact Or.inr h
    · exact Or.inr h

theorem mem_onAtRule {s : List String} {name y : String} (h : y ∈ onAtRule s name) :
    y ∈ s ∨ y ∈ markerTokens := by
  unfold onAtRule at h
  simp only at h
  rcases mem_addIf_marker (by decide) h with h | h
  · rcases mem_addIf_marker (by decide) h with h | h
    · rcases mem_addIf_marker (by decide) h with h | h
      · exact Or.inl h
      · exact Or.inr h
    · exact Or.inr h
  · exact Or.inr h

/-- A token in the result of a fold was in the start value or was added at a visited node. -/
theorem mem_foldl_cases (step : List String → Node → List String) (Q : Node → String → Prop)
    (hstep : ∀ s n y, y ∈ step s n → y ∈ s ∨ Q n y) (ns : List Node) {s : List String}
    {y : String} (h : y ∈ ns.foldl step s) : y ∈ s ∨ ∃ n ∈ ns, Q n y := by
  induction ns generalizing s with
  | nil => exact Or.inl h
  | cons m ms ih =>
    rcases ih h with h | ⟨n, hn, hq⟩
    · rcases hstep s m y h with h | h
      · exact Or.inl h
      · exact Or.inr ⟨m, List.mem_cons_self _ _, h⟩
    · exact Or.inr ⟨n, List.mem_cons_of_mem _ hn, hq⟩

theorem mem_walkDeclsStep {s : List String} {n : Node} {y : String}
    (h : y ∈ walkDeclsStep s n) :
    y ∈ s ∨ (y ∈ markerTokens ∨ ∃ value, n = Node.decl y value) := by
  cases n with
  | decl prop value =>
    rcases mem_onDecl h with h | h | h
    · exact Or.inl h
    · exact Or.inr (Or.inr ⟨value, by rw [h]⟩)
    · exact Or.inr (Or.inl h)
  | rule _ _ => exact Or.inl h
  | atrule _ _ _ => exact Or.inl h
  | comment _ => exact Or.inl h

theorem mem_walkRulesStep {s : List String} {n : Node} {y : String}
    (h : y ∈ walkRulesStep s n) :
    y ∈ s ∨ (y ∈ markerTokens ∨
      ∃ selector body value, n = Node.rule selector body ∧ Inside (Node.decl y value) body) := by
  cases n with
  | rule selector body =>
    simp only [walkRulesStep, onRule] at h
    rcases mem_foldl_cases walkDeclsStep
        (fun n y => y ∈ markerTokens ∨ ∃ value, n = Node.decl y value)
        (fun _ _ _ hy => mem_walkDeclsStep hy) _ h with h | ⟨m, hm, hq⟩
    · rcases mem_onSelector h with h | h
      · exact Or.inl h
      · exact Or.inr (Or.inl h)
    · rcases hq with hq | ⟨value, hq⟩
      · exact Or.inr (Or.inl hq)
      · subst hq
        exact Or.inr (Or.inr ⟨selector, body, value, rfl, inside_of_mem_walkList _ _ hm⟩)
  | decl _ _ => exact Or.inl h
  | atrule _ _ _ => exact Or.inl h
  | comment _ => exact Or.inl h

theorem mem_walkAtRulesStep {s : List String} {n : Node} {y : String}
    (h : y ∈ walkAtRulesStep s n) : y ∈ s ∨ y ∈ markerTokens := by
  cases n with
  | atrule name _ _ => exact mem_onAtRule h
  | rule _ _ => exact Or.inl h
  | decl _ _ => exact Or.inl h
  | comment _ => exact Or.inl h

theorem mem_extractFeatures {root : Root} {y : String} (h : y ∈ extractFeatures root) :
    y ∈ markerTokens ∨ ∃ selector body value,
      Inside (Node.rule selector body) root.nodes ∧ Inside (Node.decl y value) body := by
  unfold extractFeatures at h
  simp only at h
  rcases mem_foldl_cases walkAtRulesStep (fun _ y => y ∈ markerTokens)
      (fun _ _ _ hy => mem_walkAtRulesStep hy) _ h with h | ⟨_, _, hq⟩
  · rcases mem_foldl_cases walkRulesStep
        (fun n y => y ∈ markerTokens ∨ ∃ selector body value,
          n = Node.rule selector body ∧ Inside (Node.decl y value) body)
        (fun _ _ _ hy => mem_walkRulesStep hy) _ h with h | ⟨n, hn, hq⟩
    · cases h
    · rcases hq with hq | ⟨selector, body, value, hq, hd⟩
      · exact Or.inl hq
      · subst hq
        exact Or.inr ⟨selector, body, value, inside_of_mem_walkList _ _ hn, hd⟩
  · exact Or.inl hq

/-! ## Lemmas on the partition and on the aggregation -/

theorem count_filter_eq (p : String → Bool) (l : List String) (a : String) :
    (l.filter p).count a = if p a = true then l.count a else 0 := by
  split
  · rename_i h
    exact List.count_filter h
  · rename_i h
    exact List.count_eq_zero.mpr (fun hm => h (List.mem_filter.mp hm).2)

theorem tiers_perm (features : List String) :
    (features.filter toNewly ++ features.filter toWidely ++ features.filter toExperimental ++
      features.filter toStable).Perm features := by
  rw [List.perm_iff_count]
  intro a
  simp only [List.count_append, count_filter_eq, toNewly, toWidely, toExperimental, toStable]
  rcases Bool.eq_false_or_eq_true (someMatch baselineData.newlyAvailable a) with hN | hN <;>
    rcases Bool.eq_false_or_eq_true (someMatch baselineData.widelyAvailable a) with hW | hW <;>
      rcases Bool.eq_false_or_eq_true (someMatch baselineData.experimental a) with hE | hE <;>
        simp [hN, hW, hE]

theorem filter_disjoint (p q : String → Bool) (l : List String)
    (h : ∀ t, p t = true → q t = true → False) : List.Disjoint (l.filter p) (l.filter q) := by
  intro t hp hq
  exact h t (List.mem_filter.mp hp).2 (List.mem_filter.mp hq).2

/-- The loop of lines 376-379 started from any set `allFeatures`. -/
theorem mem_foldl_files (files : FileSystem) (cssFiles : List String) (s : List String)
    (y : String) :
    y ∈ cssFiles.foldl
        (fun allFeatures cssFile => (analyzeCSSFile files cssFile).foldl setAdd allFeatures) s ↔
      y ∈ s ∨ ∃ p ∈ cssFiles, y ∈ analyzeCSSFile files p := by
  induction cssFiles generalizing s with
  | nil => simp
  | cons f fs ih =>
    simp only [List.foldl_cons, ih, mem_foldl_setAdd, List.mem_cons, exists_eq_or_imp]
    tauto

theorem mem_collectFeatures (files : FileSystem) (cssFiles : List String) (y : String) :
    y ∈ collectFeatures files cssFiles ↔ ∃ p ∈ cssFiles, y ∈ analyzeCSSFile files p := by
  unfold collectFeatures
  rw [mem_foldl_files]
  simp

theorem nodup_foldl_files (files : FileSystem) (cssFiles : List String) (s : List String)
    (h : s.Nodup) :
    (cssFiles.foldl
      (fun allFeatures cssFile => (analyzeCSSFile files cssFile).foldl setAdd allFeatures)
      s).Nodup := by
  induction cssFiles generalizing s with
  | nil => exact h
  | cons f fs ih => exact ih _ (nodup_foldl_setAdd _ s h)

theorem nodup_collectFeatures (files : FileSystem) (cssFiles : List String) :
    (collectFeatures files cssFiles).Nodup :=
  nodup_foldl_files files cssFiles [] List.nodup_nil

theorem analyzeCSSFile_of_none {files : FileSystem} {filePath : String}
    (h : files filePath = none) : analyzeCSSFile files filePath = [] := by
  simp [analyzeCSSFile, h]

theorem foldl_files_filter (files : FileSystem) (cssFiles : List String) (s : List String) :
    cssFiles.foldl
        (fun allFeatures cssFile => (analyzeCSSFile files cssFile).foldl setAdd allFeatures) s =
      (cssFiles.filter (fun p => (files p).isSome)).foldl
        (fun allFeatures cssFile => (analyzeCSSFile files cssFile).foldl setAdd allFeatures)
        s := by
  induction cssFiles generalizing s with
  | nil => rfl
  | cons f fs ih =>
    cases hf : files f with
    | none =>
      rw [List.foldl_cons, List.filter_cons_of_neg (by simp [hf]), analyzeCSSFile_of_none hf]
      exact ih s
    | some root =>
      rw [List.foldl_cons, List.filter_cons_of_pos (by simp [hf]), List.foldl_cons]
      exact ih _

theorem collectFeatures_perm (files : FileSystem) {xs ys : List String} (h : xs.Perm ys) :
    (collectFeatures files xs).Perm (collectFeatures files ys) := by
  rw [List.perm_ext_iff_of_nodup (nodup_collectFeatures files xs) (nodup_collectFeatures files ys)]
  intro a
  simp only [mem_collectFeatures, h.mem_iff]

theorem analyze_cons (files : FileSystem) (repoInfo : Option RepoInfo) (cssFile : String)
    (cssFiles : List String) :
    analyze files repoInfo (cssFile :: cssFiles) =
      { stats :=
          { newlyAvailable :=
              ((collectFeatures files (cssFile :: cssFiles)).filter toNewly).length
            widelyAvailable :=
              ((collectFeatures files (cssFile :: cssFiles)).filter toWidely).length
            experimental :=
              ((collectFeatures files (cssFile :: cssFiles)).filter toExperimental).length
            stable := ((collectFeatures files (cssFile :: cssFiles)).filter toStable).length }
        features :=
          ((collectFeatures files (cssFile :: cssFiles)).filter toNewly).map
              (fun f => { name := f, category := "Newly Available" }) ++
            ((collectFeatures files (cssFile :: cssFiles)).filter toWidely).map
              (fun f => { name := f, category := "Widely Available" }) ++
            ((collectFeatures files (cssFile :: cssFiles)).filter toExperimental).map
              (fun f => { name := f, category := "Experimental" }) ++
            ((collectFeatures files (cssFile :: cssFiles)).filter toStable).map
              (fun f => { name := f, category := "Stable" })
        message := none
        cssFilesCount := some (cssFile :: cssFiles).length
        totalFeatures := some (collectFeatures files (cssFile :: cssFiles)).length
        repositoryInfo := some (repoInfo.map (fun r =>
          { name := r.repo
            owner := r.owner
            defaultBranch := r.defaultBranch
            url := "https://github.com/" ++ r.owner ++ "/" ++ r.repo })) } := by
  simp [analyze, categorizeFeatures_eq]

theorem analyze_nil (files : FileSystem) (repoInfo : Option RepoInfo) :
    analyze files repoInfo [] =
      { stats := { newlyAvailable := 0, widelyAvailable := 0, experimental := 0, stable := 0 }
        features := []
        message := some "No CSS files found in the repository"
        cssFilesCount := none
        totalFeatures := none
        repositoryInfo := none } := by
  simp [analyze]


/-! ## The claims -/

/-- C1: `categorizeFeatures` puts every token into the list of the first tier, in the order
newlyAvailable, widelyAvailable, experimental, stable, whose reference list has an entry that is
a substring of the token or of which the token is a substring, and into `stable` when no tier
has one; so a token matching both a newlyAvailable and a stable entry lands in
`newlyAvailable` and not in `stable`. -/
theorem categorizeFeatures_first_matching_tier (features : List String) :
    (categorizeFeatures features).newlyAvailable =
        features.filter (fun t => decide (Matches baselineData.newlyAvailable t)) ∧
      (categorizeFeatures features).widelyAvailable =
        features.filter (fun t => decide (¬ Matches baselineData.newlyAvailable t ∧
          Matches baselineData.widelyAvailable t)) ∧
      (categorizeFeatures features).experimental =
        features.filter (fun t => decide (¬ Matches baselineData.newlyAvailable t ∧
          ¬ Matches baselineData.widelyAvailable t ∧ Matches baselineData.experimental t)) ∧
      (categorizeFeatures features).stable =
        features.filter (fun t => decide
          ((¬ Matches baselineData.newlyAvailable t ∧ ¬ Matches baselineData.widelyAvailable t ∧
              ¬ Matches baselineData.experimental t ∧ Matches baselineData.stable t) ∨
            (¬ Matches baselineData.newlyAvailable t ∧ ¬ Matches baselineData.widelyAvailable t ∧
              ¬ Matches baselineData.experimental t ∧ ¬ Matches baselineData.stable t))) ∧
      (∀ t ∈ features, Matches baselineData.newlyAvailable t → Matches baselineData.stable t →
        t ∈ (categorizeFeatures features).newlyAvailable ∧
          t ∉ (categorizeFeatures features).stable) := by
  rw [categorizeFeatures_eq]
  refine ⟨?_, ?_, ?_, ?_, ?_⟩
  · exact congrArg (fun p => features.filter p) (funext toNewly_eq)
  · exact congrArg (fun p => features.filter p) (funext toWidely_eq)
  · exact congrArg (fun p => features.filter p) (funext toExperimental_eq)
  · exact congrArg (fun p => features.filter p) (funext toStable_eq)
  · intro t ht hN _
    have hN' : someMatch baselineData.newlyAvailable t = true := (someMatch_iff _ _).mpr hN
    constructor
    · exact List.mem_filter.mpr ⟨ht, hN'⟩
    · intro hs
      have := (List.mem_filter.mp hs).2
      simp [toStable, hN'] at this

/-- C2: `categorizeFeatures` splits its input over the four lists: together they are a
rearrangement of the input (nothing dropped, nothing invented), no string is in two of them, and
their lengths add up to the input length; in the report for a non-empty file list the four
counts of `stats` add up to the number of distinct tokens, which is `totalFeatures` and the length
of `features`; in the report for an empty file list, which has no `totalFeatures`, the counts
still add up to the length of `features`. -/
theorem categorizeFeatures_partition (features : List String) (files : FileSystem)
    (repoInfo : Option RepoInfo) (cssFile : String) (cssFiles : List String) :
    ((categorizeFeatures features).newlyAvailable ++
        (categorizeFeatures features).widelyAvailable ++
        (categorizeFeatures features).experimental ++
        (categorizeFeatures features).stable).Perm features ∧
      List.Disjoint (categorizeFeatures features).newlyAvailable
        (categorizeFeatures features).widelyAvailable ∧
      List.Disjoint (categorizeFeatures features).newlyAvailable
        (categorizeFeatures features).experimental ∧
      List.Disjoint (categorizeFeatures features).newlyAvailable
        (categorizeFeatures features).stable ∧
      List.Disjoint (categorizeFeatures features).widelyAvailable
        (categorizeFeatures features).experimental ∧
      List.Disjoint (categorizeFeatures features).widelyAvailable
        (categorizeFeatures features).stable ∧
      List.Disjoint (categorizeFeatures features).experimental
        (categorizeFeatures features).stable ∧
      (categorizeFeatures features).newlyAvailable.length +
          (categorizeFeatures features).widelyAvailable.length +
          (categorizeFeatures features).experimental.length +
          (categorizeFeatures features).stable.length = features.length ∧
      (analyze files repoInfo (cssFile :: cssFiles)).stats.newlyAvailable +
          (analyze files repoInfo (cssFile :: cssFiles)).stats.widelyAvailable +
          (analyze files repoInfo (cssFile :: cssFiles)).stats.experimental +
          (analyze files repoInfo (cssFile :: cssFiles)).stats.stable =
        (collectFeatures files (cssFile :: cssFiles)).length ∧
      (analyze files repoInfo (cssFile :: cssFiles)).totalFeatures =
        some (collectFeatures files (cssFile :: cssFiles)).length ∧
      (analyze files repoInfo (cssFile :: cssFiles)).features.length =
        (collectFeatures files (cssFile :: cssFiles)).length ∧
      (analyze files repoInfo []).stats.newlyAvailable +
          (analyze files repoInfo []).stats.widelyAvailable +
          (analyze files repoInfo []).stats.experimental +
          (analyze files repoInfo []).stats.stable =
        (analyze files repoInfo []).features.length := by
  have hlen : ∀ l : List String,
      (l.filter toNewly).length + (l.filter toWidely).length + (l.filter toExperimental).length +
        (l.filter toStable).length = l.length := by
    intro l
    have := (tiers_perm l).length_eq
    simp only [List.length_append] at this
    omega
  rw [categorizeFeatures_eq, analyze_cons, analyze_nil]
  refine ⟨tiers_perm features, ?_, ?_, ?_, ?_, ?_, ?_, hlen features, hlen _, rfl, ?_, rfl⟩
  · exact filter_disjoint _ _ _ (fun t => by simp [toNewly, toWidely]; intro h; simp [h])
  · exact filter_disjoint _ _ _ (fun t => by simp [toNewly, toExperimental]; intro h; simp [h])
  · exact filter_disjoint _ _ _ (fun t => by simp [toNewly, toStable]; intro h; simp [h])
  · exact filter_disjoint _ _ _
      (fun t => by simp [toWidely, toExperimental]; intro _ h; simp [h])
  · exact filter_disjoint _ _ _ (fun t => by simp [toWidely, toStable]; intro _ h; simp [h])
  · exact filter_disjoint _ _ _
      (fun t => by simp [toExperimental, toStable]; intro _ _ h; simp [h])
  · simp only [List.length_append, List.length_map]
    exact hlen _


/-- C3, refuted as stated: the parsed document holding `font-family: Inter` directly in the
body of `@font-face` and the parsed document holding `color: red` at the top level each
contain a declaration, yet `analyzeCSSFile` does not return its property; and of a document
with both a declaration in `@font-face` and one in a rule only the latter is returned. -/
theorem declaration_outside_rule_not_extracted :
    (Inside (Node.decl "font-family" "Inter") fontFaceRoot.nodes ∧
        "font-family" ∉ analyzeCSSFile (fun _ => some fontFaceRoot) "fonts.css") ∧
      (Inside (Node.decl "color" "red") topLevelRoot.nodes ∧
        "color" ∉ analyzeCSSFile (fun _ => some topLevelRoot) "inline.css") ∧
      (Inside (Node.decl "font-family" "Inter") mixedRoot.nodes ∧
        analyzeCSSFile (fun _ => some mixedRoot) "mixed.css" = ["color"]) := by
  refine ⟨⟨?_, by decide⟩, ⟨?_, by decide⟩, ⟨?_, by decide⟩⟩
  · exact Inside.atrule (List.mem_cons_self _ _) (Inside.child (List.mem_cons_self _ _))
  · exact Inside.child (List.mem_cons_self _ _)
  · exact Inside.atrule (List.mem_cons_self _ _) (Inside.child (List.mem_cons_self _ _))

/-- C3, amended: when a file parses, the property of every declaration node that lies anywhere
below a style rule of the tree is in the token list that `analyzeCSSFile` returns, as the node
carries it; and declarations elsewhere add nothing: every returned token is one of the marker
literals or the property of a declaration below a style rule. -/
theorem declaration_in_rule_extracted (files : FileSystem) (filePath : String) (root : Root)
    (hparse : files filePath = some root) :
    (∀ selector body prop value, Inside (Node.rule selector body) root.nodes →
        Inside (Node.decl prop value) body → prop ∈ analyzeCSSFile files filePath) ∧
      (∀ t ∈ analyzeCSSFile files filePath, t ∈ markerTokens ∨
        ∃ selector body value, Inside (Node.rule selector body) root.nodes ∧
          Inside (Node.decl t value) body) := by
  simp only [analyzeCSSFile, hparse]
  exact ⟨fun _ _ _ _ hrule hdecl => prop_mem_extractFeatures hrule hdecl,
    fun _ ht => mem_extractFeatures ht⟩

/-- C3, amended, at the document with `font-family: Inter` directly in `@font-face` and the rule
`.a` with `color: red` inside `@media`. -/
theorem declaration_in_rule_extracted_witness :
    (fun _ => some mixedRoot : FileSystem) "mixed.css" = some mixedRoot ∧
      ((∀ selector body prop value, Inside (Node.rule selector body) mixedRoot.nodes →
          Inside (Node.decl prop value) body →
          prop ∈ analyzeCSSFile (fun _ => some mixedRoot) "mixed.css") ∧
        (∀ t ∈ analyzeCSSFile (fun _ => some mixedRoot) "mixed.css", t ∈ markerTokens ∨
          ∃ selector body value, Inside (Node.rule selector body) mixedRoot.nodes ∧
            Inside (Node.decl t value) body)) :=
  ⟨rfl, declaration_in_rule_extracted (fun _ => some mixedRoot) "mixed.css" mixedRoot rfl⟩

/-- C4, refuted as stated: the report for an empty file list has no `totalFeatures` field, so
the field is not 0. -/
theorem totalFeatures_absent_without_files :
    (analyze (fun _ => none) none []).totalFeatures = none ∧
      (analyze (fun _ => none) none []).totalFeatures ≠ some 0 := by
  constructor <;> simp [analyze]

/-- C4, amended: for an empty file list the handler answers with a report whose four counts
are 0, whose feature list is empty and whose message is `No CSS files found in the repository`;
the fields `cssFilesCount`, `totalFeatures` and `repositoryInfo` are absent. -/
theorem no_files_report (files : FileSystem) (repoInfo : Option RepoInfo) :
    (analyze files repoInfo []).stats =
        { newlyAvailable := 0, widelyAvailable := 0, experimental := 0, stable := 0 } ∧
      (analyze files repoInfo []).features = [] ∧
      (analyze files repoInfo []).message = some "No CSS files found in the repository" ∧
      (analyze files repoInfo []).cssFilesCount = none ∧
      (analyze files repoInfo []).totalFeatures = none ∧
      (analyze files repoInfo []).repositoryInfo = none := by
  rw [analyze_nil]
  exact ⟨rfl, rfl, rfl, rfl, rfl, rfl⟩

/-- C5: the distinct tokens are collected in discovery order without repetition, and the
`features` list of the report is four blocks in the order Newly Available, Widely Available,
Experimental, Stable; each block lists, in discovery order, exactly the tokens of that tier
under the category string of that tier. -/
theorem report_features_blocks (files : FileSystem) (repoInfo : Option RepoInfo)
    (cssFiles : List String) :
    (collectFeatures files cssFiles).Nodup ∧
      (analyze files repoInfo cssFiles).features =
        ((collectFeatures files cssFiles).filter
            (fun t => decide (Matches baselineData.newlyAvailable t))).map
          (fun f => { name := f, category := "Newly Available" }) ++
        ((collectFeatures files cssFiles).filter
            (fun t => decide (¬ Matches baselineData.newlyAvailable t ∧
              Matches baselineData.widelyAvailable t))).map
          (fun f => { name := f, category := "Widely Available" }) ++
        ((collectFeatures files cssFiles).filter
            (fun t => decide (¬ Matches baselineData.newlyAvailable t ∧
              ¬ Matches baselineData.widelyAvailable t ∧
              Matches baselineData.experimental t))).map
          (fun f => { name := f, category := "Experimental" }) ++
        ((collectFeatures files cssFiles).filter
            (fun t => decide (¬ Matches baselineData.newlyAvailable t ∧
              ¬ Matches baselineData.widelyAvailable t ∧
              ¬ Matches baselineData.experimental t))).map
          (fun f => { name := f, category := "Stable" }) := by
  refine ⟨nodup_collectFeatures files cssFiles, ?_⟩
  have hS : toStable = fun t => decide (¬ Matches baselineData.newlyAvailable t ∧
      ¬ Matches baselineData.widelyAvailable t ∧ ¬ Matches baselineData.experimental t) := by
    funext t
    rw [Bool.eq_iff_iff]
    simp [toStable, someMatch_iff, ← Bool.not_eq_true]
  rw [← funext toNewly_eq, ← funext toWidely_eq, ← funext toExperimental_eq, ← hS]
  cases cssFiles with
  | nil => simp [analyze_nil, collectFeatures]
  | cons p ps => rw [analyze_cons]

/-- C6: for two files the set of distinct tokens does not depend on the order in which they are
analysed: the two collected lists have the same members and are rearrangements of one another,
and the reports carry the same four counts and the same `totalFeatures`. -/
theorem collectFeatures_order_independent (files : FileSystem) (repoInfo : Option RepoInfo)
    (a b : String) :
    (∀ t, t ∈ collectFeatures files [a, b] ↔ t ∈ collectFeatures files [b, a]) ∧
      (collectFeatures files [a, b]).Nodup ∧ (collectFeatures files [b, a]).Nodup ∧
      (collectFeatures files [a, b]).Perm (collectFeatures files [b, a]) ∧
      (analyze files repoInfo [a, b]).stats = (analyze files repoInfo [b, a]).stats ∧
      (analyze files repoInfo [a, b]).totalFeatures =
        (analyze files repoInfo [b, a]).totalFeatures := by
  have hp : (collectFeatures files [a, b]).Perm (collectFeatures files [b, a]) :=
    collectFeatures_perm files (List.Perm.swap b a [])
  refine ⟨fun t => hp.mem_iff, nodup_collectFeatures _ _, nodup_collectFeatures _ _, hp, ?_, ?_⟩
  · rw [analyze_cons, analyze_cons]
    simp only [(hp.filter toNewly).length_eq, (hp.filter toWidely).length_eq,
      (hp.filter toExperimental).length_eq, (hp.filter toStable).length_eq]
  · rw [analyze_cons, analyze_cons]
    simp only [hp.length_eq]

/-- C7: for the rule `.card:has(img)` with declarations `container-type: inline-size` and
`width: clamp(1rem, 2vw, 3rem)` the extractor returns `:has()`, `container-type`, `width` and
`clamp()`, and the classifier puts `:has()`, `container-type` and `clamp()` into
`newlyAvailable` and `width` into `widelyAvailable`. -/
theorem card_scenario :
    analyzeCSSFile (fun _ => some cardRoot) "card.css" =
        [":has()", "container-type", "width", "clamp()"] ∧
      (categorizeFeatures (analyzeCSSFile (fun _ => some cardRoot) "card.css")).newlyAvailable =
        [":has()", "container-type", "clamp()"] ∧
      (categorizeFeatures (analyzeCSSFile (fun _ => some cardRoot) "card.css")).widelyAvailable =
        ["width"] ∧
      (categorizeFeatures (analyzeCSSFile (fun _ => some cardRoot) "card.css")).experimental =
        [] ∧
      (categorizeFeatures (analyzeCSSFile (fun _ => some cardRoot) "card.css")).stable = [] := by
  decide

/-- C8: for the at-rule `keyframes` holding the rules `from` and `to`, each with one
`transform` declaration, the extractor returns exactly `transform` and `@keyframes`, and the
classifier puts both into `widelyAvailable`. -/
theorem keyframes_scenario :
    analyzeCSSFile (fun _ => some keyframesRoot) "spin.css" = ["transform", "@keyframes"] ∧
      (categorizeFeatures (analyzeCSSFile (fun _ => some keyframesRoot) "spin.css")).newlyAvailable
        = [] ∧
      (categorizeFeatures
        (analyzeCSSFile (fun _ => some keyframesRoot) "spin.css")).widelyAvailable =
        ["transform", "@keyframes"] ∧
      (categorizeFeatures (analyzeCSSFile (fun _ => some keyframesRoot) "spin.css")).experimental
        = [] ∧
      (categorizeFeatures (analyzeCSSFile (fun _ => some keyframesRoot) "spin.css")).stable =
        [] := by
  decide

/-- C9: a file whose reading or parsing fails yields the empty token list, and the tokens
collected over a batch are those collected over the batch without its failing files. -/
theorem failing_file_contributes_nothing (files : FileSystem) (filePath : String)
    (cssFiles : List String) (hfail : files filePath = none) :
    analyzeCSSFile files filePath = [] ∧
      collectFeatures files cssFiles =
        collectFeatures files (cssFiles.filter (fun p => (files p).isSome)) :=
  ⟨analyzeCSSFile_of_none hfail, foldl_files_filter files cssFiles []⟩

/-- C9 at a batch of a failing file, a parsing file and another failing file. -/
theorem failing_file_contributes_nothing_witness :
    oneGoodFile "broken.css" = none ∧
      (analyzeCSSFile oneGoodFile "broken.css" = [] ∧
        collectFeatures oneGoodFile ["broken.css", "good.css", "missing.css"] =
          collectFeatures oneGoodFile
            (["broken.css", "good.css", "missing.css"].filter
              (fun p => (oneGoodFile p).isSome))) :=
  ⟨rfl, failing_file_contributes_nothing oneGoodFile "broken.css"
    ["broken.css", "good.css", "missing.css"] rfl⟩

/-- C10: `color`, `position`, `visibility`, `animation`, `filter` and `grid` are entries of the
widelyAvailable reference list (the first three also of the stable one), yet all six are
classified newlyAvailable, each being contained in or containing a newlyAvailable entry. -/
theorem listed_widely_classified_newly :
    (∀ t ∈ ["color", "position", "visibility", "animation", "filter", "grid"],
        t ∈ baselineData.widelyAvailable) ∧
      (∀ t ∈ ["color", "position", "visibility"], t ∈ baselineData.stable) ∧
      (categorizeFeatures
          ["color", "position", "visibility", "animation", "filter", "grid"]).newlyAvailable =
        ["color", "position", "visibility", "animation", "filter", "grid"] ∧
      (categorizeFeatures
          ["color", "position", "visibility", "animation", "filter", "grid"]).widelyAvailable =
        [] ∧
      (categorizeFeatures
          ["color", "position", "visibility", "animation", "filter", "grid"]).experimental =
        [] ∧
      (categorizeFeatures
          ["color", "position", "visibility", "animation", "filter", "grid"]).stable = [] ∧
      (∀ f ∈ ["color-mix", "@position-try", "vi", "animation-timeline", "backdrop-filter",
          "subgrid"], f ∈ baselineData.newlyAvailable) ∧
      includes "color-mix" "color" = true ∧
      includes "@position-try" "position" = true ∧
      includes "visibility" "vi" = true ∧
      includes "animation-timeline" "animation" = true ∧
      includes "backdrop-filter" "filter" = true ∧
      includes "subgrid" "grid" = true := by
  decide

end CssRizz
